import Mathlib

/-!
Verification of the PromptDirectory content store and its template
hydration engine, shallowly embedded from
`promptdir/utils/snippet_repo.py` (classes `TemplateManager`, `BaseRepo`,
`PromptRepo`, `SnippetRepo`, `ScriptRepo`) and
`promptdir/commands/copy_cmd.py`.

Python strings are modelled as `List Char` (`Str`), Python dicts as
association lists in insertion order with unique keys, and the on-disk
working trees plus the in-memory item cache as an explicit `RepoState`
record threaded through each operation.  Interactive inputs (the editor's
resulting file content, confirmation answers) are passed as explicit
arguments.  Recursions that consume a non-structural amount of the input
use an explicit fuel equal to the input length so that every definition
reduces inside the kernel.
-/

/-- Python strings, modelled as their list of characters. -/
abbrev Str := List Char

/-- Coercion from a Lean string literal to the model's string type. -/
def str (s : String) : Str := s.data

/-- Python dict lookup on an association list: the first binding wins
(dict keys are unique, so this is exactly `d[k]` / `k in d`). -/
def lookupKV {α β : Type} [DecidableEq α] (k : α) : List (α × β) → Option β
  | [] => none
  | (k', v) :: rest => if k' = k then some v else lookupKV k rest

/-- Python dict assignment / file overwrite: replace the binding in place
when the key is present, append it otherwise. -/
def setKV {α β : Type} [DecidableEq α] (k : α) (v : β) : List (α × β) → List (α × β)
  | [] => [(k, v)]
  | (k', v') :: rest => if k' = k then (k, v) :: rest else (k', v') :: setKV k v rest

/-- Python dict `pop` / file unlink: drop every binding of the key (the
lists we use bind each key at most once). -/
def removeKV {α β : Type} [DecidableEq α] (k : α) : List (α × β) → List (α × β)
  | [] => []
  | (k', v') :: rest => if k' = k then removeKV k rest else (k', v') :: removeKV k rest

/-- One step of matching the regular expression used by
`TemplateManager.hydrate`, `re.findall(r"\x7b(.*?)\x7d", template)`, at a
position just after an opening brace: the non-greedy `.*?` takes the
characters (any character except a newline, which `.` cannot cross) up to
the nearest closing brace.  Returns the captured name and the rest of the
input after the closing brace, or `none` when no closing brace is
reachable. -/
def findClose : Str → Option (Str × Str)
  | [] => none
  | c :: rest =>
    if c = '}' then some ([], rest)
    else if c = '\n' then none
    else
      match findClose rest with
      | some (name, rem) => some (c :: name, rem)
      | none => none

/-- Fuelled scan of `re.findall(r"\x7b(.*?)\x7d", template)`: at each
opening brace try to complete a match with `findClose`; on success resume
after the match, on failure resume at the next character.  Every step
consumes at least one character, so fuel equal to the input length is
enough. -/
def findPlaceholdersGo : Nat → Str → List Str
  | _, [] => []
  | 0, _ => []
  | fuel + 1, c :: rest =>
    if c = '{' then
      match findClose rest with
      | some (name, rem) => name :: findPlaceholdersGo fuel rem
      | none => findPlaceholdersGo fuel rest
    else findPlaceholdersGo fuel rest

/-- The ordered list of placeholder names of a template body, with
duplicates kept, exactly as `re.findall(r"\x7b(.*?)\x7d", template)`
produces them. -/
def findPlaceholders (s : Str) : List Str := findPlaceholdersGo s.length s

/-- Fuelled body of Python's `str.replace`: replace the leftmost
occurrence of `pat` and continue after the replaced chunk (the
replacement text is never rescanned), otherwise keep one character and
continue.  Every step consumes at least one character of `s` (the
patterns built by `hydrate` are never empty), so fuel equal to the length
of `s` is enough. -/
def replaceAllGo (pat rep : Str) : Nat → Str → Str
  | _, [] => []
  | 0, s => s
  | fuel + 1, c :: rest =>
    if pat.isPrefixOf (c :: rest) && !pat.isEmpty then
      rep ++ replaceAllGo pat rep fuel (List.drop pat.length (c :: rest))
    else c :: replaceAllGo pat rep fuel rest

/-- Python's `s.replace(pat, rep)` for a non-empty `pat`: every
non-overlapping occurrence, scanned left to right. -/
def replaceAll (s pat rep : Str) : Str := replaceAllGo pat rep s.length s

/-- Errors raised by `TemplateManager.hydrate` (both are `ValueError` in
the source; the `missingArguments` payload carries the three lists the
message interpolates: the missing names, the full required list and the
keys actually supplied). -/
inductive HydrateError : Type where
  | templateNotFound (name : Str)
  | missingArguments (missing required provided : List Str)
deriving DecidableEq

/-- The substitution loop of `TemplateManager.hydrate`:
`for key in placeholders: template = template.replace("\x7b" + key + "\x7d", args[key])`.
The fold runs over the placeholder list with duplicates, each step
replacing on the result of the previous one.  `getD []` is never the
default at call sites: the loop only runs once every placeholder key was
found in `args`. -/
def substitute_placeholders (body : Str) (args : List (Str × Str)) : Str :=
  (findPlaceholders body).foldl
    (fun t k => replaceAll t ('{' :: k ++ ['}']) ((lookupKV k args).getD [])) body

/-- The extras of `TemplateManager.hydrate`: the argument bindings whose
key is not a placeholder, in argument (dict insertion) order. -/
def extra_args (body : Str) (args : List (Str × Str)) : List (Str × Str) :=
  args.filter fun kv => decide (kv.1 ∉ findPlaceholders body)

/-- `TemplateManager.hydrate(template_name, args, suffix="")`: look the
template up in the cache, find its placeholders, fail when one has no
argument, substitute each placeholder, append `, k is v` for every extra
argument and `, suffix` when the suffix is non-empty. -/
def hydrate (cache : List (Str × Str)) (templateName : Str) (args : List (Str × Str))
    (suffix : Str) : Except HydrateError Str :=
  match lookupKV templateName cache with
  | none => .error (.templateNotFound templateName)
  | some template =>
    let missing := (findPlaceholders template).filter fun k => (lookupKV k args).isNone
    if missing = [] then
      let substituted := substitute_placeholders template args
      let extras := extra_args template args
      let withExtras :=
        if extras = [] then substituted
        else substituted ++ str ", " ++
          List.intercalate (str ", ") (extras.map fun kv => kv.1 ++ str " is " ++ kv.2)
      .ok (if suffix = [] then withExtras else withExtras ++ str ", " ++ suffix)
    else .error (.missingArguments missing (findPlaceholders template) (args.map Prod.fst))

deriving instance DecidableEq for Except

/-- Python's `address.split("/")`: split on every slash, keeping empty
parts, never returning an empty list. -/
def splitSlash : Str → List Str
  | [] => [[]]
  | c :: rest =>
    match splitSlash rest with
    | [] => [[]]
    | h :: t => if c = '/' then [] :: h :: t else (c :: h) :: t

/-- Resolution of the owner part of an address, as `read_item`,
`edit_item` and `copy_item` do it:
`address.split("/")[0] if "/" in address else self.get_username()`. -/
def addrUser (username address : Str) : Str :=
  if '/' ∈ address then (splitSlash address).headD [] else username

/-- Resolution of the item part of an address: `address.split("/")[-1]`. -/
def addrItem (address : Str) : Str := (splitSlash address).getLastD []

/-- Python's `str.removesuffix`. -/
def removesuffix (suffix s : Str) : Str :=
  if suffix.isSuffixOf s then s.take (s.length - suffix.length) else s

/-- Python's `query in line` substring test. -/
def isSubstring (q : Str) : Str → Bool
  | [] => q.isEmpty
  | c :: rest => q.isPrefixOf (c :: rest) || isSubstring q rest

/-- ASCII lowering of one character; `input("> ").lower()` is only ever
compared against the ASCII string "y". -/
def toLowerChar (c : Char) : Char :=
  if 'A' ≤ c ∧ c ≤ 'Z' then Char.ofNat (c.toNat + 32) else c

/-- Python's `str.lower` restricted to ASCII, enough for the
confirmation prompts that compare the answer with "y". -/
def toLowerStr (s : Str) : Str := s.map toLowerChar

/-- Python whitespace for `str.strip` (the ASCII whitespace characters;
the interesting inputs of this code are ASCII). -/
def isPySpace (c : Char) : Bool :=
  c = ' ' || c = '\t' || c = '\n' || c = '\x0b' || c = '\x0c' || c = '\r'

/-- Python's `str.strip()`: drop whitespace from both ends. -/
def stripStr (s : Str) : Str :=
  ((s.dropWhile isPySpace).reverse.dropWhile isPySpace).reverse

/-- Python's line-boundary characters for `str.splitlines` (the carriage
return + newline pair is handled as one boundary by `splitlines` itself). -/
def isLineBreakChar (c : Char) : Bool :=
  c = '\n' || c = '\r' || c = '\x0b' || c = '\x0c' ||
  c = '\x1c' || c = '\x1d' || c = '\x1e' || c = '\x85' ||
  c = '\u2028' || c = '\u2029'

/-- Worker for `str.splitlines`: `acc` is the reversed current line; a
terminating line boundary does not open a final empty line. -/
def splitlinesGo (acc : Str) : Str → List Str
  | [] => [acc.reverse]
  | '\r' :: '\n' :: rest =>
    acc.reverse :: (if rest.isEmpty then [] else splitlinesGo [] rest)
  | c :: rest =>
    if isLineBreakChar c then
      acc.reverse :: (if rest.isEmpty then [] else splitlinesGo [] rest)
    else splitlinesGo (c :: acc) rest

/-- Python's `content.splitlines()`. -/
def splitlines : Str → List Str
  | [] => []
  | s => splitlinesGo [] s

/-- The per-kind configuration of `BaseRepo`: content subdirectory, file
suffix, singular noun for messages, and whether the kind is the script
kind (`isinstance(self, ScriptRepo)`). -/
structure RepoConfig : Type where
  contentDir : Str
  fileSuffix : Str
  itemNameSingular : Str
  isScript : Bool
deriving DecidableEq

/-- `PromptRepo.__init__`: subdirectory `prompts`, suffix `.prompt.md`. -/
def promptConfig : RepoConfig := ⟨str "prompts", str ".prompt.md", str "prompt", false⟩

/-- `SnippetRepo.__init__`: subdirectory `snippets`, suffix `.snippet.txt`. -/
def snippetConfig : RepoConfig := ⟨str "snippets", str ".snippet.txt", str "snippet", false⟩

/-- `ScriptRepo.__init__`: subdirectory `scripts`, empty suffix. -/
def scriptConfig : RepoConfig := ⟨str "scripts", [], str "script", true⟩

/-- One staged/committed/pushed Git action run in a worktree. -/
inductive GitOp : Type where
  | add (branch path : Str)
  | commit (branch msg : Str)
  | push (branch target : Str)
deriving DecidableEq

/-- The observable state of one repository: the branch list
(`_list_branches`), the files of every branch's content directory keyed
by `(branch, file name)`, the in-memory item cache (`cached_items`,
keyed `branch/item`), and the log of Git mutations run so far. -/
structure RepoState : Type where
  branches : List Str
  files : List ((Str × Str) × Str)
  cache : List (Str × Str)
  gitLog : List GitOp
deriving DecidableEq

/-- The files of one branch's content directory, in directory order. -/
def branchFiles (files : List ((Str × Str) × Str)) (b : Str) : List (Str × Str) :=
  files.filterMap fun e => if e.1.1 = b then some (e.1.2, e.2) else none

/-- The item names of one branch: the files matching the glob
`*<suffix>`, with the suffix stripped (an empty suffix, the script kind,
matches every file). -/
def branchItemNames (cfg : RepoConfig) (files : List ((Str × Str) × Str)) (b : Str) :
    List Str :=
  (branchFiles files b).filterMap fun f =>
    if cfg.fileSuffix.isSuffixOf f.1 then some (removesuffix cfg.fileSuffix f.1) else none

/-- `BaseRepo._generate_map_of_item_names_to_content`: scan every
branch's content directory and map `branch/item` to the file's content.
(The Python method also assigns the result to `self.cached_items`; the
callers below thread that assignment through `RepoState` explicitly.) -/
def generate_map (cfg : RepoConfig) (branches : List Str)
    (files : List ((Str × Str) × Str)) : List (Str × Str) :=
  branches.flatMap fun b =>
    (branchFiles files b).filterMap fun f =>
      if cfg.fileSuffix.isSuffixOf f.1 then
        some (b ++ '/' :: removesuffix cfg.fileSuffix f.1, f.2)
      else none

/-- Errors raised by the `BaseRepo` operations: `FileNotFoundError`,
`FileExistsError`, `PermissionError`, and the `ValueError`s raised for a
malformed address (`user, item = address.split("/")` failing to unpack)
or for a slash inside a `rename_item` argument. -/
inductive RepoError : Type where
  | itemNotFound
  | itemAlreadyExists
  | permissionDenied
  | invalidAddress
deriving DecidableEq

/-- `BaseRepo.read_item(address)`: resolve the owner (defaulting to the
acting identity), read the file from the owner's working tree, fail when
it is absent.  Reads only the file system; the state comes back
unchanged. -/
def read_item (cfg : RepoConfig) (username : Str) (s : RepoState) (address : Str) :
    Except RepoError Str × RepoState :=
  let user := addrUser username address
  let item := addrItem address
  match lookupKV (user, item ++ cfg.fileSuffix) s.files with
  | none => (.error .itemNotFound, s)
  | some content => (.ok content, s)

/-- `BaseRepo.write_item(address, content)`: unpack `user/item`, refuse
when the acting identity is not the owner, otherwise write the file,
stage it, commit, push, and rebuild the item cache (`load_items`). -/
def write_item (cfg : RepoConfig) (username : Str) (s : RepoState)
    (address content : Str) : Except RepoError Unit × RepoState :=
  match splitSlash address with
  | [user, item] =>
    if username ≠ user then (.error .permissionDenied, s)
    else
      let fname := item ++ cfg.fileSuffix
      let files' := setKV (user, fname) content s.files
      (.ok (), { s with
        files := files'
        gitLog := s.gitLog ++
          [.add user (cfg.contentDir ++ '/' :: fname),
           .commit user (str "Update " ++ cfg.itemNameSingular ++ str ": " ++ item),
           .push user user]
        cache := generate_map cfg s.branches files' })
  | _ => (.error .invalidAddress, s)

/-- `BaseRepo.delete_item(address)`: unpack `user/item`, refuse when the
acting identity is not the owner, fail when the file is absent,
otherwise unlink, stage, commit, push and rebuild the cache. -/
def delete_item (cfg : RepoConfig) (username : Str) (s : RepoState) (address : Str) :
    Except RepoError Unit × RepoState :=
  match splitSlash address with
  | [user, item] =>
    if username ≠ user then (.error .permissionDenied, s)
    else
      let fname := item ++ cfg.fileSuffix
      match lookupKV (user, fname) s.files with
      | none => (.error .itemNotFound, s)
      | some _ =>
        let files' := removeKV (user, fname) s.files
        (.ok (), { s with
          files := files'
          gitLog := s.gitLog ++
            [.add user (cfg.contentDir ++ '/' :: fname),
             .commit user (str "Delete " ++ cfg.itemNameSingular ++ str ": " ++ item),
             .push user user]
          cache := generate_map cfg s.branches files' })
  | _ => (.error .invalidAddress, s)

/-- `BaseRepo.rename_item(source_address, destination_address)`: refuse
any slash (rename is same-branch only), fail when the source file is
absent or the destination file present, otherwise move the file, stage
both paths, commit, push and rebuild the cache. -/
def rename_item (cfg : RepoConfig) (username : Str) (s : RepoState)
    (src dst : Str) : Except RepoError Unit × RepoState :=
  if '/' ∈ src ∨ '/' ∈ dst then (.error .invalidAddress, s)
  else
    let srcKey := (username, src ++ cfg.fileSuffix)
    let dstKey := (username, dst ++ cfg.fileSuffix)
    match lookupKV srcKey s.files with
    | none => (.error .itemNotFound, s)
    | some content =>
      if (lookupKV dstKey s.files).isSome then (.error .itemAlreadyExists, s)
      else
        let files' := setKV dstKey content (removeKV srcKey s.files)
        (.ok (), { s with
          files := files'
          gitLog := s.gitLog ++
            [.add username (cfg.contentDir ++ '/' :: srcKey.2),
             .add username (cfg.contentDir ++ '/' :: dstKey.2),
             .commit username (str "Rename " ++ cfg.itemNameSingular ++ str ": " ++
               src ++ str " to " ++ dst),
             .push username username]
          cache := generate_map cfg s.branches files' })

/-- `BaseRepo.get_item_names()`: walk the branches, collecting the acting
identity's items bare and every other branch's items prefixed with the
branch name, then sort the two groups and concatenate them. -/
def get_item_names (cfg : RepoConfig) (username : Str) (s : RepoState) : List Str :=
  let pair := s.branches.foldl
    (fun (acc : List Str × List Str) b =>
      let names := branchItemNames cfg s.files b
      if b = username then (acc.1 ++ names, acc.2)
      else (acc.1, acc.2 ++ names.map fun i => b ++ '/' :: i))
    ([], [])
  List.insertionSort (· ≤ ·) pair.1 ++ List.insertionSort (· ≤ ·) pair.2

/-- `BaseRepo.search_items(query)`: rescan every branch (the call to
`_generate_map_of_item_names_to_content`, which also reassigns
`self.cached_items`), then emit `name:line_number: line.strip()` for
every line of every item containing the query as a literal substring.
Returns the printed result lines and the state after the rescan. -/
def search_items (cfg : RepoConfig) (s : RepoState) (query : Str) :
    List Str × RepoState :=
  let items := generate_map cfg s.branches s.files
  let results := items.flatMap fun nc =>
    (splitlines nc.2).enum.filterMap fun il =>
      if isSubstring query il.2 then
        some (nc.1 ++ ':' :: (Nat.repr (il.1 + 1)).data ++ str ": " ++ stripStr il.2)
      else none
  (results, { s with cache := items })

/-- `BaseRepo.copy_item(address)` (the clipboard sink is out of scope):
serve the content from the cache when the fully qualified address is
there, otherwise from the owner's working tree, failing when the file is
absent.  No state is modified. -/
def copy_item (cfg : RepoConfig) (username : Str) (s : RepoState) (address : Str) :
    Except RepoError Str × RepoState :=
  let user := addrUser username address
  let item := addrItem address
  match lookupKV (user ++ '/' :: item) s.cache with
  | some content => (.ok content, s)
  | none =>
    match lookupKV (user, item ++ cfg.fileSuffix) s.files with
    | none => (.error .itemNotFound, s)
    | some content => (.ok content, s)

/-- `BaseRepo._check_shebang(item_path)`: pass unconditionally for
non-script kinds; for the script kind pass when the file's first line
starts with `#!`, and otherwise when the interactive answer lowercases
to `y`.  A file's first line starts with `#!` exactly when the whole
content does. -/
def check_shebang (cfg : RepoConfig) (content answer : Str) : Bool :=
  if cfg.isScript then
    if (str "#!").isPrefixOf content then true
    else decide (toLowerStr answer = str "y")
  else true

/-- `BaseRepo.edit_item(address)`: the external editor rewrites the file
to `editedContent`; when the content changed, the script kind re-checks
the shebang policy and on refusal writes the pre-edit content back and
stops, otherwise the change is staged, committed, pushed and the cache
rebuilt; unchanged content is a no-op. -/
def edit_item (cfg : RepoConfig) (username : Str) (s : RepoState) (address : Str)
    (editedContent answer : Str) : Except RepoError Unit × RepoState :=
  let user := addrUser username address
  let item := addrItem address
  let key := (user, item ++ cfg.fileSuffix)
  match lookupKV key s.files with
  | none => (.error .itemNotFound, s)
  | some contentBefore =>
    let s1 := { s with files := setKV key editedContent s.files }
    if contentBefore ≠ editedContent then
      if cfg.isScript && !(check_shebang cfg editedContent answer) then
        (.ok (), { s1 with files := setKV key contentBefore s1.files })
      else
        let s2 := { s1 with
          gitLog := s1.gitLog ++
            [GitOp.add user (cfg.contentDir ++ '/' :: key.2),
             GitOp.commit user (str "Edit " ++ cfg.itemNameSingular ++ str ": " ++ item),
             GitOp.push user user] }
        (.ok (), { s2 with cache := generate_map cfg s2.branches s2.files })
    else (.ok (), s1)

/-- `BaseRepo.create_new_file(template_dir, filename)` against the acting
identity's working tree: append the suffix when absent, ask before
overwriting an existing file, collect the content
(`"\n".join(content).strip() + "\n"`), write it, and for the script kind
re-check the shebang policy, unlinking the file on refusal; on success
the cache is rebuilt (no commit or push happens here). -/
def create_new_file (cfg : RepoConfig) (username : Str) (s : RepoState)
    (filename : Str) (contentLines : List Str) (overwriteAnswer shebangAnswer : Str) :
    RepoState :=
  let fname := if cfg.fileSuffix.isSuffixOf filename then filename
    else filename ++ cfg.fileSuffix
  let key := (username, fname)
  if (lookupKV key s.files).isSome ∧ toLowerStr overwriteAnswer ≠ str "y" then s
  else
    let content := stripStr (List.intercalate (str "\n") contentLines) ++ ['\n']
    let files1 := setKV key content s.files
    if cfg.isScript && !(check_shebang cfg content shebangAnswer) then
      { s with files := removeKV key files1 }
    else
      { s with files := files1, cache := generate_map cfg s.branches files1 }

/-- Errors surfaced by `PromptRepo.copy_item`: the prompt can be missing
from both cache and working tree, or hydration can raise. -/
inductive CopyError : Type where
  | notFound
  | hydrateErr (e : HydrateError)
deriving DecidableEq

/-- `PromptRepo.copy_item(address, hydrate_args)` (clipboard sink out of
scope): resolve the content as the base `copy_item` does; when the
argument mapping is non-empty, pop its `suffix` key (mutating the
mapping) and hydrate with the popped value as the suffix parameter.
Returns the produced content and the argument mapping as the call leaves
it. -/
def prompt_copy_item (username : Str) (s : RepoState) (address : Str)
    (hydrateArgs : List (Str × Str)) :
    Except CopyError Str × List (Str × Str) :=
  let user := addrUser username address
  let item := addrItem address
  let full := user ++ '/' :: item
  let content? :=
    match lookupKV full s.cache with
    | some c => some c
    | none => lookupKV (user, item ++ promptConfig.fileSuffix) s.files
  match content? with
  | none => (.error .notFound, hydrateArgs)
  | some content =>
    if hydrateArgs ≠ [] then
      let suffix := (lookupKV (str "suffix") hydrateArgs).getD []
      let args' := removeKV (str "suffix") hydrateArgs
      match hydrate s.cache full args' suffix with
      | .ok c => (.ok c, args')
      | .error e => (.error (.hydrateErr e), args')
    else (.ok content, hydrateArgs)

/-- The item listing characterization the listing contract states: the
acting identity's items, bare, in branch-walk order, before sorting. -/
def ownItemsOf (cfg : RepoConfig) (username : Str) (files : List ((Str × Str) × Str))
    (bs : List Str) : List Str :=
  (bs.filter fun b => decide (b = username)).flatMap (branchItemNames cfg files)

/-- The item listing characterization for the other branches: their
items, prefixed with the owning branch, in branch-walk order. -/
def otherItemsOf (cfg : RepoConfig) (username : Str) (files : List ((Str × Str) × Str))
    (bs : List Str) : List Str :=
  (bs.filter fun b => decide (b ≠ username)).flatMap fun b =>
    (branchItemNames cfg files b).map fun i => b ++ '/' :: i

/-- A template cache with the single template `t` of body `\x7ba\x7d\x7bb\x7d`. -/
def cacheAB : List (Str × Str) := [(str "t", '{' :: 'a' :: '}' :: '{' :: 'b' :: '}' :: [])]

/-- The literal token `\x7ba\x7d`. -/
def tokA : Str := '{' :: 'a' :: '}' :: []

/-- The literal token `\x7bb\x7d`. -/
def tokB : Str := '{' :: 'b' :: '}' :: []

/-- A two-branch snippet store used as a concrete input for witnesses:
alice owns items `z` and `a`, bob owns item `a`; the cache is stale
(empty) and no Git mutation has run. -/
def exampleState : RepoState :=
  ⟨[str "alice", str "bob"],
   [((str "alice", str "z.snippet.txt"), str "za"),
    ((str "bob", str "a.snippet.txt"), str "ab"),
    ((str "alice", str "a.snippet.txt"), str "aa")],
   [], []⟩

/-- A one-branch snippet store whose single item's only line carries
leading whitespace, and whose cache is stale (empty). -/
def wsState : RepoState :=
  ⟨[str "u"], [((str "u", str "a.snippet.txt"), str "  hi")], [], []⟩

/-- A one-branch script store with a single script that has a shebang. -/
def scriptState : RepoState :=
  ⟨[str "u"], [((str "u", str "run"), str "#!/bin/sh\nx")], [], []⟩

/-- A prompt store whose cache holds the single template `u/t` whose body
uses the placeholder named suffix. -/
def promptState : RepoState :=
  ⟨[str "u"], [], [(str "u/t", str "go " ++ '{' :: str "suffix" ++ '}' :: str " now")], []⟩

/-- Writing a key makes it readable with the written value. -/
theorem lookupKV_setKV_self {α β : Type} [DecidableEq α] (k : α) (v : β) :
    ∀ l : List (α × β), lookupKV k (setKV k v l) = some v := by
  intro l
  induction l with
  | nil => simp [setKV, lookupKV]
  | cons e rest ih =>
    obtain ⟨k', v'⟩ := e
    by_cases h : k' = k
    · simp [setKV, h, lookupKV]
    · simp [setKV, h, lookupKV, ih]

/-- Writing one key leaves every other key's lookup unchanged. -/
theorem lookupKV_setKV_ne {α β : Type} [DecidableEq α] {k k' : α} (v : β)
    (h : k' ≠ k) : ∀ l : List (α × β), lookupKV k' (setKV k v l) = lookupKV k' l := by
  intro l
  induction l with
  | nil => simp [setKV, lookupKV, Ne.symm h]
  | cons e rest ih =>
    obtain ⟨a, b⟩ := e
    by_cases ha : a = k
    · subst ha
      simp [setKV, lookupKV, Ne.symm h]
    · simp only [setKV, ha, if_neg, ite_false, lookupKV]
      by_cases hb : a = k'
      · simp [hb]
      · simp [hb, ih]

/-- Removing a key makes its lookup fail. -/
theorem lookupKV_removeKV_self {α β : Type} [DecidableEq α] (k : α) :
    ∀ l : List (α × β), lookupKV k (removeKV k l) = none := by
  intro l
  induction l with
  | nil => simp [removeKV, lookupKV]
  | cons e rest ih =>
    obtain ⟨a, b⟩ := e
    by_cases ha : a = k
    · simp [removeKV, ha, ih]
    · simp [removeKV, ha, lookupKV, ih]

/-- Removing one key leaves every other key's lookup unchanged. -/
theorem lookupKV_removeKV_ne {α β : Type} [DecidableEq α] {k k' : α}
    (h : k' ≠ k) : ∀ l : List (α × β), lookupKV k' (removeKV k l) = lookupKV k' l := by
  intro l
  induction l with
  | nil => simp [removeKV]
  | cons e rest ih =>
    obtain ⟨a, b⟩ := e
    by_cases ha : a = k
    · subst ha
      simp [removeKV, lookupKV, Ne.symm h, ih]
    · simp only [removeKV, ha, if_neg, lookupKV]
      by_cases hb : a = k'
      · simp [hb]
      · simp [hb, ih]

/-- Writing back the value a key already holds is the identity. -/
theorem setKV_of_lookup_eq {α β : Type} [DecidableEq α] {k : α} {v : β} :
    ∀ {l : List (α × β)}, lookupKV k l = some v → setKV k v l = l := by
  intro l
  induction l with
  | nil => simp [lookupKV]
  | cons e rest ih =>
    obtain ⟨a, b⟩ := e
    by_cases ha : a = k
    · subst ha
      simp [lookupKV, setKV]
      intro h
      exact h.symm
    · simp [lookupKV, ha, setKV]
      exact ih

/-- Removing an absent key is the identity. -/
theorem removeKV_of_lookup_none {α β : Type} [DecidableEq α] {k : α} :
    ∀ {l : List (α × β)}, lookupKV k l = none → removeKV k l = l := by
  intro l
  induction l with
  | nil => simp [removeKV]
  | cons e rest ih =>
    obtain ⟨a, b⟩ := e
    by_cases ha : a = k
    · simp [lookupKV, ha]
    · simp [lookupKV, ha, removeKV]
      exact ih

/-- Removing a freshly written key restores a store that lacked it. -/
theorem removeKV_setKV_cancel {α β : Type} [DecidableEq α] {k : α} (v : β)
    {l : List (α × β)} (h : lookupKV k l = none) : removeKV k (setKV k v l) = l := by
  induction l with
  | nil => simp [setKV, removeKV]
  | cons e rest ih =>
    obtain ⟨a, b⟩ := e
    by_cases ha : a = k
    · rw [lookupKV] at h
      simp [ha] at h
    · rw [lookupKV] at h
      simp only [ha, if_neg] at h
      simp [setKV, ha, removeKV, ih h]

/-- Splitting a slash-free string yields the one-element list. -/
theorem splitSlash_no_slash : ∀ {x : Str}, '/' ∉ x → splitSlash x = [x] := by
  intro x
  induction x with
  | nil => intro _; rfl
  | cons c rest ih =>
    intro h
    have hc : c ≠ '/' := fun hh => h (hh ▸ List.mem_cons_self c rest)
    have hr : '/' ∉ rest := fun hh => h (List.mem_cons_of_mem c hh)
    rw [splitSlash, ih hr]
    simp [hc]

/-- Python's split never returns an empty list. -/
theorem splitSlash_ne_nil : ∀ {x : Str}, splitSlash x ≠ [] := by
  intro x
  induction x with
  | nil => simp [splitSlash]
  | cons c rest ih =>
    rw [splitSlash]
    rcases h : splitSlash rest with _ | ⟨a, b⟩
    · exact absurd h ih
    · by_cases hc : c = '/' <;> simp [hc]

/-- Splitting peels a slash-free first component off at its slash. -/
theorem splitSlash_append {u : Str} (i : Str) (hu : '/' ∉ u) :
    splitSlash (u ++ '/' :: i) = u :: splitSlash i := by
  induction u with
  | nil =>
    rcases hsp : splitSlash i with _ | ⟨h, t⟩
    · exact absurd hsp splitSlash_ne_nil
    · simp [splitSlash, hsp]
  | cons c rest ih =>
    have hc : c ≠ '/' := fun hh => hu (hh ▸ List.mem_cons_self c rest)
    have hr : '/' ∉ rest := fun hh => hu (List.mem_cons_of_mem c hh)
    rw [List.cons_append, splitSlash, ih hr]
    simp [hc]

/-- The owner of a qualified address `u/i` resolves to `u`. -/
theorem addrUser_qualified {u : Str} (username i : Str) (hu : '/' ∉ u) :
    addrUser username (u ++ '/' :: i) = u := by
  rw [addrUser, if_pos (by simp), splitSlash_append i hu]
  rfl

/-- The item of a qualified address `u/i` resolves to `i`. -/
theorem addrItem_qualified {u : Str} (i : Str) (hu : '/' ∉ u) (hi : '/' ∉ i) :
    addrItem (u ++ '/' :: i) = i := by
  rw [addrItem, splitSlash_append i hu, splitSlash_no_slash hi]
  rfl

/-- The owner of a bare address resolves to the acting identity. -/
theorem addrUser_bare {x : Str} (username : Str) (h : '/' ∉ x) :
    addrUser username x = username := by
  rw [addrUser, if_neg h]

/-- The item of a bare address is the address itself. -/
theorem addrItem_bare {x : Str} (h : '/' ∉ x) : addrItem x = x := by
  rw [addrItem, splitSlash_no_slash h]
  rfl

/-- The fuelled replacement loop ignores the exact fuel once it covers
the input length. -/
theorem replaceAllGo_fuel (pat rep : Str) :
    ∀ f₁ : Nat, ∀ s : Str, ∀ f₂ : Nat, s.length ≤ f₁ → s.length ≤ f₂ →
      replaceAllGo pat rep f₁ s = replaceAllGo pat rep f₂ s := by
  intro f₁
  induction f₁ with
  | zero =>
    intro s f₂ h₁ _
    rw [Nat.le_zero, List.length_eq_zero] at h₁
    subst h₁
    cases f₂ <;> rfl
  | succ f ih =>
    intro s f₂ h₁ h₂
    cases s with
    | nil => cases f₂ <;> rfl
    | cons c rest =>
      cases f₂ with
      | zero => simp at h₂
      | succ g =>
        rw [replaceAllGo, replaceAllGo]
        by_cases hm : pat.isPrefixOf (c :: rest) && !pat.isEmpty
        · rw [if_pos hm, if_pos hm]
          have hpat : 0 < pat.length := by
            rcases Bool.and_eq_true _ _ |>.mp hm with ⟨_, hne⟩
            rcases pat with _ | ⟨p, ps⟩
            · simp [List.isEmpty] at hne
            · simp
          have hlen : (List.drop pat.length (c :: rest)).length ≤ rest.length := by
            rw [List.length_drop]
            simp only [List.length_cons]
            omega
          rw [ih _ g (le_trans hlen (Nat.lt_succ_iff.mp (Nat.lt_of_lt_of_le (Nat.lt_succ_of_le le_rfl) h₁)))
            (le_trans hlen (Nat.lt_succ_iff.mp (Nat.lt_of_lt_of_le (Nat.lt_succ_of_le le_rfl) h₂)))]
        · rw [if_neg hm, if_neg hm]
          have hr₁ : rest.length ≤ f := by
            simp only [List.length_cons] at h₁
            omega
          have hr₂ : rest.length ≤ g := by
            simp only [List.length_cons] at h₂
            omega
          rw [ih rest g hr₁ hr₂]

/-- Replacement in the empty string is empty. -/
theorem replaceAll_nil (pat rep : Str) : replaceAll [] pat rep = [] := rfl

/-- Replacement fires on a leading occurrence of the pattern and never
rescans the replacement text. -/
theorem replaceAll_head_match (pat rep t : Str) (h : pat ≠ []) :
    replaceAll (pat ++ t) pat rep = rep ++ replaceAll t pat rep := by
  rcases pat with _ | ⟨p, ps⟩
  · exact absurd rfl h
  · rw [replaceAll, List.cons_append, List.length_cons, replaceAllGo]
    have hpre : (p :: ps).isPrefixOf (p :: (ps ++ t)) = true := by
      rw [List.isPrefixOf_iff_prefix]
      exact ⟨t, by simp⟩
    rw [if_pos (by simp [hpre, List.isEmpty])]
    have hdrop : List.drop (p :: ps).length (p :: (ps ++ t)) = t := by
      have := List.drop_left (p :: ps) t
      rwa [List.cons_append] at this
    rw [hdrop, replaceAllGo_fuel _ _ _ t t.length (by simp) le_rfl]
    rfl

/-- Replacement skips a position where the pattern does not match. -/
theorem replaceAll_head_skip {pat : Str} {c : Char} {t : Str} (rep : Str)
    (h : pat.isPrefixOf (c :: t) = false) :
    replaceAll (c :: t) pat rep = c :: replaceAll t pat rep := by
  rw [replaceAll, List.length_cons, replaceAllGo, if_neg (by simp [h])]
  rfl

/-- Unfolding one step of a two-or-more element intercalation. -/
theorem intercalate_cons_cons (sep x y : Str) (l : List Str) :
    List.intercalate sep (x :: y :: l) = x ++ sep ++ List.intercalate sep (y :: l) := by
  simp [List.intercalate, List.intersperse]

/-- The guarded `sep + sep.join(l)` concatenation equals one separator-led
clause per element. -/
theorem comma_join_eq_foldr (sep : Str) :
    ∀ l : List Str,
      (if l = [] then ([] : Str) else sep ++ List.intercalate sep l) =
        l.foldr (fun c acc => sep ++ c ++ acc) [] := by
  intro l
  induction l with
  | nil => rfl
  | cons x xs ih =>
    rcases xs with _ | ⟨y, ys⟩
    · simp [List.intercalate, List.intersperse]
    · rw [if_neg (by simp), intercalate_cons_cons, List.foldr_cons, ← ih, if_neg (by simp)]
      simp

/-- Claim C1, counterexample: for the template `\x7ba\x7d\x7bb\x7d` with the value of
`a` being the literal token `\x7bb\x7d`, hydration succeeds and produces `XX`: the
embedded token does not appear verbatim in the output, it was replaced by
the value of `b`. -/
theorem hydrate_embedded_token_replaced_cex :
    hydrate cacheAB (str "t") [(str "a", tokB), (str "b", str "X")] [] = .ok (str "XX") ∧
    isSubstring tokB (str "XX") = false := by
  exact ⟨by decide, by decide⟩

/-- Claim C1, amended: the substitution is a sequence of single-pass
replacements, one per placeholder in scan order, each applied to the
result of the previous one; a substituted value containing a token `\x7bx\x7d`
is therefore re-expanded when `x` is a placeholder substituted later
(first conjunct: the embedded `\x7bb\x7d` becomes `b`'s value, giving `vb ++ vb`),
while a token naming an already-substituted placeholder survives verbatim
(second conjunct). -/
theorem hydrate_sequential_substitution :
    (∀ vb : Str,
      hydrate cacheAB (str "t") [(str "a", tokB), (str "b", vb)] [] = .ok (vb ++ vb)) ∧
    hydrate cacheAB (str "t") [(str "a", str "X"), (str "b", tokA)] [] =
      .ok ('X' :: tokA) := by
  constructor
  · intro vb
    have h1 : hydrate cacheAB (str "t") [(str "a", tokB), (str "b", vb)] [] =
        .ok (replaceAll (tokB ++ tokB) tokB vb) := rfl
    have h3 : replaceAll tokB tokB vb = vb := by
      have h := replaceAll_head_match tokB vb [] (by decide)
      simpa [replaceAll_nil] using h
    have h2 : replaceAll (tokB ++ tokB) tokB vb = vb ++ vb := by
      rw [replaceAll_head_match tokB vb tokB (by decide), h3]
    rw [h1, h2]
  · decide

/-- Claim C3: for a template present in the cache, `hydrate(t, args, "")`
succeeds exactly when every placeholder name of the body is a key of
`args`; otherwise it fails with the missing-arguments error whose payload
is exactly the list of missing placeholder names, the full placeholder
list of the template, and the list of keys actually supplied. -/
theorem hydrate_totality_missing_args (cache : List (Str × Str)) (t body : Str)
    (args : List (Str × Str)) (h : lookupKV t cache = some body) :
    ((∃ r, hydrate cache t args [] = .ok r) ↔
      ∀ p ∈ findPlaceholders body, (lookupKV p args).isSome) ∧
    (∀ p ∈ findPlaceholders body, lookupKV p args = none →
      hydrate cache t args [] =
        .error (.missingArguments
          ((findPlaceholders body).filter fun k => (lookupKV k args).isNone)
          (findPlaceholders body) (args.map Prod.fst))) := by
  by_cases hm : ((findPlaceholders body).filter fun k => (lookupKV k args).isNone) = []
  · constructor
    · constructor
      · intro _ p hp
        have hf := List.filter_eq_nil_iff.mp hm p hp
        cases hx : lookupKV p args
        · simp [hx] at hf
        · simp
      · intro _
        exact ⟨_, by rw [hydrate, h]; dsimp only; rw [if_pos hm]⟩
    · intro p hp hnone
      have := List.filter_eq_nil_iff.mp hm p hp
      simp [hnone] at this
  · constructor
    · constructor
      · intro ⟨r, hr⟩
        rw [hydrate, h] at hr
        dsimp only at hr
        rw [if_neg hm] at hr
        exact absurd hr (by simp)
      · intro hall
        exfalso
        apply hm
        refine List.filter_eq_nil_iff.mpr fun p hp => ?_
        have := hall p hp
        cases hx : lookupKV p args
        · simp [hx] at this
        · simp [hx]
    · intro p hp hnone
      rw [hydrate, h]
      dsimp only
      rw [if_neg hm]

/-- Claim C6: when hydration succeeds, every argument key not consumed as
a placeholder is appended as one `, key is value` clause in argument
order after the substituted body, the suffix is appended as `, suffix`
when non-empty, and with no extras and an empty suffix the result is
exactly the substituted body. -/
theorem hydrate_extras_suffix_append (cache : List (Str × Str)) (t body suffix : Str)
    (args : List (Str × Str)) (h : lookupKV t cache = some body)
    (hall : ∀ p ∈ findPlaceholders body, (lookupKV p args).isSome) :
    hydrate cache t args suffix = .ok
      (substitute_placeholders body args ++
        (extra_args body args).foldr
          (fun kv acc => str ", " ++ (kv.1 ++ str " is " ++ kv.2) ++ acc) [] ++
        (if suffix = [] then [] else str ", " ++ suffix)) ∧
    (extra_args body args = [] → suffix = [] →
      hydrate cache t args suffix = .ok (substitute_placeholders body args)) := by
  have hm : ((findPlaceholders body).filter fun k => (lookupKV k args).isNone) = [] := by
    refine List.filter_eq_nil_iff.mpr fun p hp => ?_
    have := hall p hp
    cases hx : lookupKV p args
    · simp [hx] at this
    · simp [hx]
  have hjoin := comma_join_eq_foldr (str ", ")
    ((extra_args body args).map fun kv => kv.1 ++ str " is " ++ kv.2)
  rw [List.foldr_map] at hjoin
  have hmain : hydrate cache t args suffix = .ok
      (substitute_placeholders body args ++
        (extra_args body args).foldr
          (fun kv acc => str ", " ++ (kv.1 ++ str " is " ++ kv.2) ++ acc) [] ++
        (if suffix = [] then [] else str ", " ++ suffix)) := by
    rw [hydrate, h]
    dsimp only
    rw [if_pos hm]
    by_cases he : extra_args body args = []
    · have hf : (extra_args body args).foldr
          (fun kv acc => str ", " ++ (kv.1 ++ str " is " ++ kv.2) ++ acc) [] = ([] : Str) := by
        rw [he]
        rfl
      by_cases hs : suffix = []
      · rw [if_pos he, if_pos hs, if_pos hs, hf]
        simp
      · rw [if_pos he, if_neg hs, if_neg hs, hf]
        simp
    · have hf : (extra_args body args).foldr
          (fun kv acc => str ", " ++ (kv.1 ++ str " is " ++ kv.2) ++ acc) [] =
          str ", " ++ List.intercalate (str ", ")
            ((extra_args body args).map fun kv => kv.1 ++ str " is " ++ kv.2) := by
        rw [← hjoin, if_neg (by simp [he])]
      by_cases hs : suffix = []
      · rw [if_neg he, if_pos hs, if_pos hs, hf]
        simp [List.append_assoc]
      · rw [if_neg he, if_neg hs, if_neg hs, hf]
        simp [List.append_assoc]
  refine ⟨hmain, fun he hs => ?_⟩
  rw [hmain, he, hs]
  simp

/-- Claim C2: for every content kind, writing to `owner/name` when the
acting identity differs from `owner` fails with the permission error and
returns the state unchanged: no file is touched and nothing is staged,
committed or pushed. -/
theorem write_item_cross_branch_denied (cfg : RepoConfig) (username owner item content : Str)
    (s : RepoState) (hne : owner ≠ username) (hu : '/' ∉ owner) (hi : '/' ∉ item) :
    write_item cfg username s (owner ++ '/' :: item) content = (.error .permissionDenied, s) := by
  rw [write_item, splitSlash_append item hu, splitSlash_no_slash hi]
  dsimp only
  rw [if_pos (Ne.symm hne)]

/-- Witness for claim C2: alice cannot write into bob's branch. -/
theorem write_item_cross_branch_denied_witness :
    write_item snippetConfig (str "alice") exampleState (str "bob" ++ '/' :: str "x")
      (str "c") = (.error .permissionDenied, exampleState) :=
  write_item_cross_branch_denied snippetConfig (str "alice") (str "bob") (str "x")
    (str "c") exampleState (by decide) (by decide) (by decide)

/-- Claim C4: rename fails on a slash in either argument and on a missing
source, both with the state unchanged; it fails with the already-exists
error when the destination file is present, leaving the source file
untouched; and on success reading the destination yields exactly what the
source held before while reading the source now fails. -/
theorem rename_item_invariants (cfg : RepoConfig) (username src dst : Str) (s : RepoState) :
    (('/' ∈ src ∨ '/' ∈ dst) →
      rename_item cfg username s src dst = (.error .invalidAddress, s)) ∧
    ('/' ∉ src → '/' ∉ dst →
      lookupKV (username, src ++ cfg.fileSuffix) s.files = none →
      rename_item cfg username s src dst = (.error .itemNotFound, s)) ∧
    (∀ ca cb, '/' ∉ src → '/' ∉ dst →
      lookupKV (username, src ++ cfg.fileSuffix) s.files = some ca →
      lookupKV (username, dst ++ cfg.fileSuffix) s.files = some cb →
      rename_item cfg username s src dst = (.error .itemAlreadyExists, s)) ∧
    (∀ ca, '/' ∉ src → '/' ∉ dst →
      lookupKV (username, src ++ cfg.fileSuffix) s.files = some ca →
      lookupKV (username, dst ++ cfg.fileSuffix) s.files = none →
      (rename_item cfg username s src dst).1 = .ok () ∧
      (read_item cfg username (rename_item cfg username s src dst).2 dst).1 = .ok ca ∧
      (read_item cfg username (rename_item cfg username s src dst).2 src).1 =
        .error .itemNotFound) := by
  refine ⟨?_, ?_, ?_, ?_⟩
  · intro hor
    rw [rename_item, if_pos hor]
  · intro hsu hsd hnone
    rw [rename_item, if_neg (by simp [hsu, hsd])]
    dsimp only
    rw [hnone]
  · intro ca cb hsu hsd hsrc hdst
    rw [rename_item, if_neg (by simp [hsu, hsd])]
    dsimp only
    rw [hsrc]
    dsimp only
    rw [if_pos (by rw [hdst]; rfl)]
  · intro ca hsu hsd hsrc hdst
    have hkey : (username, dst ++ cfg.fileSuffix) ≠ (username, src ++ cfg.fileSuffix) := by
      intro he
      rw [he, hsrc] at hdst
      cases hdst
    have hrn : rename_item cfg username s src dst =
        (.ok (), { s with
          files := setKV (username, dst ++ cfg.fileSuffix) ca
            (removeKV (username, src ++ cfg.fileSuffix) s.files)
          gitLog := s.gitLog ++
            [.add username (cfg.contentDir ++ '/' :: (src ++ cfg.fileSuffix)),
             .add username (cfg.contentDir ++ '/' :: (dst ++ cfg.fileSuffix)),
             .commit username (str "Rename " ++ cfg.itemNameSingular ++ str ": " ++
               src ++ str " to " ++ dst),
             .push username username]
          cache := generate_map cfg s.branches
            (setKV (username, dst ++ cfg.fileSuffix) ca
              (removeKV (username, src ++ cfg.fileSuffix) s.files)) }) := by
      rw [rename_item, if_neg (by simp [hsu, hsd])]
      dsimp only
      rw [hsrc]
      dsimp only
      rw [if_neg (by rw [hdst]; simp)]
    refine ⟨by rw [hrn], ?_, ?_⟩
    · rw [hrn, read_item, addrUser_bare username hsd, addrItem_bare hsd]
      dsimp only
      rw [lookupKV_setKV_self]
    · rw [hrn, read_item, addrUser_bare username hsu, addrItem_bare hsu]
      dsimp only
      rw [lookupKV_setKV_ne _ (Ne.symm hkey), lookupKV_removeKV_self]

/-- Witness for claim C4: the four rename scenarios on a concrete
two-branch store. -/
theorem rename_item_invariants_witness :
    rename_item snippetConfig (str "alice") exampleState (str "a") (str "z") =
      (.error .itemAlreadyExists, exampleState) ∧
    rename_item snippetConfig (str "alice") exampleState (str "q") (str "w") =
      (.error .itemNotFound, exampleState) ∧
    rename_item snippetConfig (str "alice") exampleState (str "a/b") (str "w") =
      (.error .invalidAddress, exampleState) ∧
    (rename_item snippetConfig (str "alice") exampleState (str "a") (str "w")).1 = .ok () ∧
    (read_item snippetConfig (str "alice")
      (rename_item snippetConfig (str "alice") exampleState (str "a") (str "w")).2
      (str "w")).1 = .ok (str "aa") ∧
    (read_item snippetConfig (str "alice")
      (rename_item snippetConfig (str "alice") exampleState (str "a") (str "w")).2
      (str "a")).1 = .error .itemNotFound := by
  have h3 := (rename_item_invariants snippetConfig (str "alice") (str "a") (str "z")
    exampleState).2.2.1 (str "aa") (str "za") (by decide) (by decide) (by decide) (by decide)
  have h2 := (rename_item_invariants snippetConfig (str "alice") (str "q") (str "w")
    exampleState).2.1 (by decide) (by decide) (by decide)
  have h1 := (rename_item_invariants snippetConfig (str "alice") (str "a/b") (str "w")
    exampleState).1 (by decide)
  have h4 := (rename_item_invariants snippetConfig (str "alice") (str "a") (str "w")
    exampleState).2.2.2 (str "aa") (by decide) (by decide) (by decide) (by decide)
  exact ⟨h3, h2, h1, h4.1, h4.2.1, h4.2.2⟩

/-- The branch walk of `get_item_names` accumulates exactly the acting
identity's items and the prefixed items of the other branches. -/
theorem get_item_names_foldl (cfg : RepoConfig) (username : Str)
    (files : List ((Str × Str) × Str)) :
    ∀ (bs : List Str) (u o : List Str),
      bs.foldl (fun (acc : List Str × List Str) b =>
        let names := branchItemNames cfg files b
        if b = username then (acc.1 ++ names, acc.2)
        else (acc.1, acc.2 ++ names.map fun i => b ++ '/' :: i)) (u, o) =
      (u ++ ownItemsOf cfg username files bs, o ++ otherItemsOf cfg username files bs) := by
  intro bs
  induction bs with
  | nil =>
    intro u o
    simp [ownItemsOf, otherItemsOf]
  | cons b rest ih =>
    intro u o
    rw [List.foldl_cons]
    by_cases hb : b = username
    · dsimp only
      rw [if_pos hb, ih]
      simp [ownItemsOf, otherItemsOf, hb, List.filter_cons, List.append_assoc]
    · dsimp only
      rw [if_neg hb, ih]
      simp [ownItemsOf, otherItemsOf, hb, List.filter_cons, List.append_assoc]

/-- Claim C5: the item-name listing is partitioned into the acting
identity's own items, bare and sorted ascending, followed by the other
branches' items, owner-prefixed and sorted ascending, with no
interleaving. -/
theorem get_item_names_partition (cfg : RepoConfig) (username : Str) (s : RepoState) :
    ∃ mine others,
      get_item_names cfg username s = mine ++ others ∧
      mine.Sorted (· ≤ ·) ∧ others.Sorted (· ≤ ·) ∧
      List.Perm mine (ownItemsOf cfg username s.files s.branches) ∧
      List.Perm others (otherItemsOf cfg username s.files s.branches) := by
  refine ⟨List.insertionSort (· ≤ ·) (ownItemsOf cfg username s.files s.branches),
    List.insertionSort (· ≤ ·) (otherItemsOf cfg username s.files s.branches),
    ?_, ?_, ?_, ?_, ?_⟩
  · rw [get_item_names]
    dsimp only
    rw [get_item_names_foldl]
    simp
  · exact List.sorted_insertionSort _ _
  · exact List.sorted_insertionSort _ _
  · exact List.perm_insertionSort _ _
  · exact List.perm_insertionSort _ _

/-- Claim C7, counterexample: for an item whose matching line is `  hi`,
search prints `u/a:1: hi` - the stripped line - and not `u/a:1:   hi`,
which the line's own text would give. -/
theorem search_items_strips_line_cex :
    (search_items snippetConfig wsState (str "hi")).1 = [str "u/a:1: hi"] ∧
    str "u/a:1:   hi" ∉ (search_items snippetConfig wsState (str "hi")).1 := by
  exact ⟨by decide, by decide⟩

/-- Claim C7, amended: search scans every item of the freshly rebuilt
item map line by line and emits `name:line_number: line.strip()` - the
line with surrounding whitespace stripped, 1-based numbering - exactly
for the lines containing the query as a literal, case-sensitive
substring; an empty result set is not an error, search returning the
matching lines as data. -/
theorem search_items_output_characterization (cfg : RepoConfig) (s : RepoState)
    (query : Str) :
    ∀ x, x ∈ (search_items cfg s query).1 ↔
      ∃ nc ∈ generate_map cfg s.branches s.files,
        ∃ il ∈ (splitlines nc.2).enum,
          isSubstring query il.2 = true ∧
          x = nc.1 ++ ':' :: (Nat.repr (il.1 + 1)).data ++ str ": " ++ stripStr il.2 := by
  intro x
  rw [search_items]
  dsimp only
  simp only [List.mem_flatMap, List.mem_filterMap]
  constructor
  · rintro ⟨nc, hnc, il, hil, hx⟩
    by_cases hq : isSubstring query il.2 = true
    · rw [if_pos hq] at hx
      exact ⟨nc, hnc, il, hil, hq, (Option.some_injective _ hx).symm⟩
    · rw [if_neg hq] at hx
      cases hx
  · rintro ⟨nc, hnc, il, hil, hq, hx⟩
    exact ⟨nc, hnc, il, hil, by rw [if_pos hq, hx]⟩

/-- Claim C8, counterexample: a search over a store whose cache is stale
replaces the cache with a fresh rescan even when nothing matches, so the
cache differs before and after this read-only operation. -/
theorem search_rebuilds_cache_cex :
    (search_items snippetConfig wsState (str "nomatch")).2.cache ≠ wsState.cache := by
  decide

/-- Claim C8, amended: read and copy leave the cache untouched, while
search replaces it with a full rescan of the working trees, and every
successful mutation (write, delete, rename) leaves the cache equal to a
full rescan of the mutated files. -/
theorem cache_rebuild_policy (cfg : RepoConfig) (username : Str) (s : RepoState)
    (address query src dst content : Str) :
    (read_item cfg username s address).2.cache = s.cache ∧
    (copy_item cfg username s address).2.cache = s.cache ∧
    (search_items cfg s query).2.cache = generate_map cfg s.branches s.files ∧
    ((write_item cfg username s address content).1 = .ok () →
      (write_item cfg username s address content).2.cache =
        generate_map cfg s.branches (write_item cfg username s address content).2.files) ∧
    ((delete_item cfg username s address).1 = .ok () →
      (delete_item cfg username s address).2.cache =
        generate_map cfg s.branches (delete_item cfg username s address).2.files) ∧
    ((rename_item cfg username s src dst).1 = .ok () →
      (rename_item cfg username s src dst).2.cache =
        generate_map cfg s.branches (rename_item cfg username s src dst).2.files) := by
  refine ⟨?_, ?_, ?_, ?_, ?_, ?_⟩
  · rw [read_item]
    split <;> rfl
  · rw [copy_item]
    split
    · rfl
    · split <;> rfl
  · rw [search_items]
  · intro h
    rcases hsp : splitSlash address with _ | ⟨a, _ | ⟨b, _ | ⟨c, r⟩⟩⟩ <;>
      rw [write_item, hsp] at h ⊢ <;> try dsimp only at h ⊢
    · simp at h
    · simp at h
    · by_cases hua : username = a
      · rw [if_neg (not_not_intro hua)]
      · rw [if_pos hua] at h
        simp at h
    · simp at h
  · intro h
    rcases hsp : splitSlash address with _ | ⟨a, _ | ⟨b, _ | ⟨c, r⟩⟩⟩ <;>
      rw [delete_item, hsp] at h ⊢ <;> try dsimp only at h ⊢
    · simp at h
    · simp at h
    · by_cases hua : username = a
      · rw [if_neg (not_not_intro hua)] at h ⊢
        rcases hl : lookupKV (a, b ++ cfg.fileSuffix) s.files with _ | c0
        · rw [hl] at h
          simp at h
        · rfl
      · rw [if_pos hua] at h
        simp at h
    · simp at h
  · intro h
    by_cases hsl : '/' ∈ src ∨ '/' ∈ dst
    · rw [rename_item, if_pos hsl] at h
      simp at h
    · rw [rename_item, if_neg hsl] at h ⊢
      dsimp only at h ⊢
      rcases hl : lookupKV (username, src ++ cfg.fileSuffix) s.files with _ | c0
      · rw [hl] at h
        simp at h
      · by_cases hd : (lookupKV (username, dst ++ cfg.fileSuffix) s.files).isSome = true
        · rw [hl] at h
          dsimp only at h
          rw [if_pos hd] at h
          simp at h
        · dsimp only
          rw [if_neg hd]

/-- Witness for claim C8 on the concrete two-branch store. -/
theorem cache_rebuild_policy_witness :
    (read_item snippetConfig (str "alice") exampleState (str "a")).2.cache =
      exampleState.cache ∧
    (search_items snippetConfig exampleState (str "a")).2.cache =
      generate_map snippetConfig exampleState.branches exampleState.files ∧
    (write_item snippetConfig (str "alice") exampleState (str "alice/q")
      (str "c")).2.cache =
      generate_map snippetConfig exampleState.branches
        (write_item snippetConfig (str "alice") exampleState (str "alice/q")
          (str "c")).2.files := by
  have h := cache_rebuild_policy snippetConfig (str "alice") exampleState
    (str "alice/q") (str "a") (str "a") (str "w") (str "c")
  have h2 := cache_rebuild_policy snippetConfig (str "alice") exampleState
    (str "a") (str "a") (str "a") (str "w") (str "c")
  exact ⟨h2.1, h2.2.2.1, h.2.2.2.1 (by decide)⟩

/-- Writing a key twice keeps only the second value. -/
theorem setKV_setKV {α β : Type} [DecidableEq α] (k : α) (v₁ v₂ : β) :
    ∀ l : List (α × β), setKV k v₂ (setKV k v₁ l) = setKV k v₂ l := by
  intro l
  induction l with
  | nil => simp [setKV]
  | cons e rest ih =>
    obtain ⟨a, b⟩ := e
    by_cases ha : a = k
    · simp [setKV, ha]
    · simp [setKV, ha, ih]

/-- Claim C9: for the script kind, declining the missing-shebang
confirmation after an edit that changed the content restores the file to
its exact pre-edit content with nothing committed or pushed, and
declining it during interactive creation of a new script deletes the
newly written file; both paths return the starting state unchanged. -/
theorem script_shebang_rejection_reverts (cfg : RepoConfig) (username : Str)
    (s : RepoState) (item editedContent answer : Str) (filename : Str)
    (contentLines : List Str) (overwriteAnswer shebangAnswer : Str)
    (hscript : cfg.isScript = true) :
    (∀ before, '/' ∉ item →
      lookupKV (username, item ++ cfg.fileSuffix) s.files = some before →
      before ≠ editedContent →
      (str "#!").isPrefixOf editedContent = false →
      toLowerStr answer ≠ str "y" →
      edit_item cfg username s item editedContent answer = (.ok (), s)) ∧
    (lookupKV (username,
        if cfg.fileSuffix.isSuffixOf filename then filename
        else filename ++ cfg.fileSuffix) s.files = none →
      (str "#!").isPrefixOf
        (stripStr (List.intercalate (str "\n") contentLines) ++ ['\n']) = false →
      toLowerStr shebangAnswer ≠ str "y" →
      create_new_file cfg username s filename contentLines overwriteAnswer
        shebangAnswer = s) := by
  have hcheck : ∀ content ans, (str "#!").isPrefixOf content = false →
      toLowerStr ans ≠ str "y" → check_shebang cfg content ans = false := by
    intro content ans hpre hans
    rw [check_shebang, if_pos hscript, if_neg (by rw [hpre]; simp)]
    simpa using hans
  constructor
  · intro before hslash hbefore hne hpre hans
    rw [edit_item, addrUser_bare username hslash, addrItem_bare hslash]
    dsimp only
    rw [hbefore]
    dsimp only
    rw [if_pos hne, if_pos (by rw [hscript, hcheck editedContent answer hpre hans]; rfl)]
    rw [setKV_setKV, setKV_of_lookup_eq hbefore]
  · intro hnew hpre hans
    rw [create_new_file]
    dsimp only
    rw [if_neg (by rw [hnew]; simp)]
    rw [if_pos (by rw [hscript, hcheck _ shebangAnswer hpre hans]; rfl)]
    rw [removeKV_setKV_cancel _ hnew]

/-- Witness for claim C9: a rejected edit and a rejected creation on a
concrete script store. -/
theorem script_shebang_rejection_reverts_witness :
    edit_item scriptConfig (str "u") scriptState (str "run") (str "nope") (str "n") =
      (.ok (), scriptState) ∧
    create_new_file scriptConfig (str "u") scriptState (str "s2") [str "oops"]
      (str "") (str "N") = scriptState := by
  have h := script_shebang_rejection_reverts scriptConfig (str "u") scriptState
    (str "run") (str "nope") (str "n") (str "s2") [str "oops"] (str "") (str "N")
    (by decide)
  exact ⟨h.1 (str "#!/bin/sh\nx") (by decide) (by decide) (by decide) (by decide)
    (by decide), h.2 (by decide) (by decide) (by decide)⟩

/-- Claim C10: prompt copy with a non-empty argument mapping removes the
key `suffix` from the mapping (the mapping it leaves behind is the
removal) and passes the removed value as the hydration suffix parameter,
so the key is never seen as a placeholder argument: a template containing
the placeholder `\x7bsuffix\x7d` makes hydration fail with a missing-arguments
error that lists `suffix` as missing. -/
theorem prompt_copy_pops_suffix (username : Str) (s : RepoState) (address : Str)
    (args : List (Str × Str)) (body : Str) (hargs : args ≠ [])
    (hcache : lookupKV (addrUser username address ++ '/' :: addrItem address)
      s.cache = some body) :
    (prompt_copy_item username s address args).2 = removeKV (str "suffix") args ∧
    (prompt_copy_item username s address args).1 =
      (match hydrate s.cache (addrUser username address ++ '/' :: addrItem address)
          (removeKV (str "suffix") args) ((lookupKV (str "suffix") args).getD []) with
        | .ok c => .ok c
        | .error e => .error (.hydrateErr e)) ∧
    (str "suffix" ∈ findPlaceholders body →
      ∃ ms ps ks,
        (prompt_copy_item username s address args).1 =
          .error (.hydrateErr (.missingArguments ms ps ks)) ∧
        str "suffix" ∈ ms) := by
  have hstep : prompt_copy_item username s address args =
      (match hydrate s.cache (addrUser username address ++ '/' :: addrItem address)
          (removeKV (str "suffix") args) ((lookupKV (str "suffix") args).getD []) with
        | .ok c => (.ok c, removeKV (str "suffix") args)
        | .error e => (.error (.hydrateErr e), removeKV (str "suffix") args)) := by
    rw [prompt_copy_item]
    dsimp only
    rw [hcache]
    dsimp only
    rw [if_pos hargs]
  refine ⟨?_, ?_, ?_⟩
  · rw [hstep]
    rcases hydrate s.cache (addrUser username address ++ '/' :: addrItem address)
      (removeKV (str "suffix") args) ((lookupKV (str "suffix") args).getD []) with c | e
    · rfl
    · rfl
  · rw [hstep]
    rcases hydrate s.cache (addrUser username address ++ '/' :: addrItem address)
      (removeKV (str "suffix") args) ((lookupKV (str "suffix") args).getD []) with c | e
    · rfl
    · rfl
  · intro hmem
    have hnone : lookupKV (str "suffix") (removeKV (str "suffix") args) = none :=
      lookupKV_removeKV_self _ _
    have hin : str "suffix" ∈ (findPlaceholders body).filter
        (fun k => (lookupKV k (removeKV (str "suffix") args)).isNone) :=
      List.mem_filter.mpr ⟨hmem, by rw [hnone]; rfl⟩
    have hne : ((findPlaceholders body).filter
        (fun k => (lookupKV k (removeKV (str "suffix") args)).isNone)) ≠ [] :=
      List.ne_nil_of_mem hin
    have hhyd : hydrate s.cache (addrUser username address ++ '/' :: addrItem address)
        (removeKV (str "suffix") args) ((lookupKV (str "suffix") args).getD []) =
        .error (.missingArguments
          ((findPlaceholders body).filter
            (fun k => (lookupKV k (removeKV (str "suffix") args)).isNone))
          (findPlaceholders body)
          ((removeKV (str "suffix") args).map Prod.fst)) := by
      rw [hydrate, hcache]
      dsimp only
      rw [if_neg hne]
    refine ⟨(findPlaceholders body).filter
        (fun k => (lookupKV k (removeKV (str "suffix") args)).isNone),
      findPlaceholders body, (removeKV (str "suffix") args).map Prod.fst, ?_, hin⟩
    rw [hstep, hhyd]

/-- Witness for claim C10 on a prompt whose body uses the placeholder
named suffix. -/
theorem prompt_copy_pops_suffix_witness :
    (prompt_copy_item (str "u") promptState (str "t") [(str "suffix", str "fast")]).2 =
      ([] : List (Str × Str)) ∧
    (∃ ms ps ks,
      (prompt_copy_item (str "u") promptState (str "t")
        [(str "suffix", str "fast")]).1 =
        .error (.hydrateErr (.missingArguments ms ps ks)) ∧
      str "suffix" ∈ ms) := by
  have h := prompt_copy_pops_suffix (str "u") promptState (str "t")
    [(str "suffix", str "fast")]
    (str "go " ++ '{' :: str "suffix" ++ '}' :: str " now") (by decide) (by decide)
  exact ⟨h.1.trans (by decide), h.2.2 (by decide)⟩

/-- Witness for claim C3 at the template `hi \x7ba\x7d` and no arguments. -/
theorem hydrate_totality_missing_args_witness :
    ((∃ r, hydrate [(str "t", str "hi \x7ba\x7d")] (str "t")
        ([] : List (Str × Str)) [] = .ok r) ↔
      ∀ p ∈ findPlaceholders (str "hi \x7ba\x7d"),
        (lookupKV p ([] : List (Str × Str))).isSome) ∧
    (∀ p ∈ findPlaceholders (str "hi \x7ba\x7d"),
      lookupKV p ([] : List (Str × Str)) = none →
      hydrate [(str "t", str "hi \x7ba\x7d")] (str "t") [] [] =
        .error (.missingArguments
          ((findPlaceholders (str "hi \x7ba\x7d")).filter
            fun k => (lookupKV k ([] : List (Str × Str))).isNone)
          (findPlaceholders (str "hi \x7ba\x7d"))
          (([] : List (Str × Str)).map Prod.fst))) :=
  hydrate_totality_missing_args _ _ _ _ (by decide)

/-- Witness for claim C6 at a one-placeholder template with one extra
argument and a non-empty suffix. -/
theorem hydrate_extras_suffix_append_witness :
    hydrate [(str "t", str "hi \x7ba\x7d")] (str "t")
      [(str "a", str "world"), (str "mood", str "calm")] (str "go") =
      .ok (substitute_placeholders (str "hi \x7ba\x7d")
          [(str "a", str "world"), (str "mood", str "calm")] ++
        (extra_args (str "hi \x7ba\x7d")
          [(str "a", str "world"), (str "mood", str "calm")]).foldr
          (fun kv acc => str ", " ++ (kv.1 ++ str " is " ++ kv.2) ++ acc) [] ++
        (if str "go" = [] then [] else str ", " ++ str "go")) :=
  (hydrate_extras_suffix_append _ _ _ _ _ (by decide) (by decide)).1
